import Mathlib

/-!
Verification of the LLMGraphChat natural-language-to-graph-query pipeline.

The definitions below are shallow embeddings of the TypeScript source:
  * `src/lib/neo4j.ts`   — result normalization (`transformNeo4jResultToGraphData`),
    schema introspection (`getGraphSchema`);
  * `src/lib/openai.ts`  — query synthesis (`generateCypherQuery`) with its
    defensive response parsing;
  * `src/app/api/chat/route.ts` — the chat orchestrator (`POST`): request
    validation, the always-on 妻子 rewrite, the empty-result repair retries,
    and the table-shaped result path.

JavaScript semantics are modelled explicitly: absent/null values are `Option`,
JS truthiness is a `Bool`-valued function on the modelled value type, and the
regex rewrites are implemented character-by-character with the exact
leftmost-match / greedy-with-backtracking behaviour of the source patterns.
-/

namespace LLMGraphChat

/-! ## String utilities (JS `String.prototype.includes`, etc.) -/

/-- Does `hay` start with `needle` (on character lists)? -/
def startsWithL : List Char → List Char → Bool
  | [], _ => true
  | _ :: _, [] => false
  | a :: as, b :: bs => a == b && startsWithL as bs

/-- Does `hay` contain `needle` as a contiguous substring (on character lists)? -/
def hasSubL (needle : List Char) : List Char → Bool
  | [] => needle.isEmpty
  | c :: t => startsWithL needle (c :: t) || hasSubL needle t

/-- JS `hay.includes(needle)`. -/
def jsIncludes (hay needle : String) : Bool :=
  hasSubL needle.data hay.data

/-- JS `String.prototype.trim` on a character list: strip leading and trailing
whitespace. -/
def trimL (s : List Char) : List Char :=
  ((s.dropWhile Char.isWhitespace).reverse.dropWhile Char.isWhitespace).reverse

/-! ## Result normalizer: `transformNeo4jResultToGraphData` (src/lib/neo4j.ts:185-218)

Property maps (`Record<string, any>`) are modelled as association lists with
string-token values; the transform never inspects them, it only passes them
through (with `|| {}` defaulting). -/

/-- A property map value, abstracted to a string token. -/
abbrev Props := List (String × String)

/-- A raw node as produced by `executeQuery`: `labels` and `properties` are
`Option` because the transform guards them (`node.labels && ...`,
`node.properties || {}`). -/
structure RawNode where
  id : String
  labels : Option (List String)
  properties : Option Props
  deriving Repr, DecidableEq

/-- A raw relationship as produced by `executeQuery`. -/
structure RawRel where
  id : String
  type : String
  startNodeId : String
  endNodeId : String
  properties : Option Props
  deriving Repr, DecidableEq

/-- The `Neo4jResult` record at the transform's boundary; the fields are
`Option` so that a missing/`null` `nodes` or `relationships` field is
representable (the source checks `!result.nodes || !result.relationships`). -/
structure Neo4jResultJS where
  nodes : Option (List RawNode)
  relationships : Option (List RawRel)
  deriving Repr, DecidableEq

/-- An output graph node: `label` is the first raw label or `"Node"`. -/
structure GNode where
  id : String
  label : String
  properties : Props
  deriving Repr, DecidableEq

/-- An output link. `source`/`target` are `Option Nat`: the source computes
`nodeIdMap[rel.startNodeId]`, which is JS `undefined` (here `none`) when the
endpoint id is not among the emitted node ids. -/
structure GLink where
  source : Option Nat
  target : Option Nat
  label : String
  properties : Props
  deriving Repr, DecidableEq

/-- The canonical graph shape returned by the transform. -/
structure GraphData where
  nodes : List GNode
  links : List GLink
  deriving Repr, DecidableEq

/-- The index stored in `nodeIdMap` for a given id: the map is built by
`nodes.forEach((node, index) => { nodeIdMap[node.id] = index })`, so the last
write (largest index) wins. `none` models JS `undefined` on lookup miss. -/
def lastIndexOf (ids : List String) (id : String) : Option Nat :=
  match ids with
  | [] => none
  | x :: t =>
    match lastIndexOf t id with
    | some k => some (k + 1)
    | none => if x == id then some 0 else none

/-- Shallow embedding of `transformNeo4jResultToGraphData`
(src/lib/neo4j.ts:185-218). -/
def transformNeo4jResultToGraphData (result : Option Neo4jResultJS) : GraphData :=
  match result with
  | none => ⟨[], []⟩
  | some r =>
    match r.nodes, r.relationships with
    | some ns, some rs =>
      let nodes : List GNode := ns.map (fun n =>
        ⟨n.id,
         (match n.labels with
          | some (l :: _) => l
          | _ => "Node"),
         n.properties.getD []⟩)
      let ids := nodes.map GNode.id
      let links : List GLink := rs.map (fun rel =>
        ⟨lastIndexOf ids rel.startNodeId,
         lastIndexOf ids rel.endNodeId,
         if rel.type.isEmpty then "RELATED_TO" else rel.type,
         rel.properties.getD []⟩)
      ⟨nodes, links⟩
    | _, _ => ⟨[], []⟩

/-! ## Query rewrites (src/app/api/chat/route.ts:286-290, 325-341)

The source rewrites queries with three JS regex replaces:
  * `/\(([^)]+)\)-\[:([^)]+)\]->\(([^)]+)\)/g` → `($3)-[:$2]->($1)` (reverse);
  * the same pattern → `($1)-[:$2]-($3)` (strip direction);
  * `/\(([^)]+)\)-\[:妻子\]->\(([^)]+)\)/g` → `($1)-[:妻子]-($2)` (妻子 force-undirected).

We model the backtracking regex engine exactly for these patterns: each
`[^)]+` group greedily takes the maximal run of non-`)` characters and
backtracks; for the middle group this resolves to the *last* split of the run
around the literal `]->(`. Replacement scanning is leftmost and continues
after the replaced span (JS `lastIndex` semantics). -/

/-- All ways to split `xs` as `pre ++ sep ++ post`, in order of the position
of `sep` (earliest first). -/
def infixSplits (sep : List Char) : List Char → List (List Char × List Char)
  | [] => if sep.isEmpty then [([], [])] else []
  | c :: t =>
    (if startsWithL sep (c :: t) then [([], (c :: t).drop sep.length)] else []) ++
    (infixSplits sep t).map (fun p => (c :: p.1, p.2))

/-- The greedy-with-backtracking resolution of `([^)]+)\]->\(([^)]+)` inside a
run of non-`)` characters: the last split `run = g2 ++ "]->(" ++ g3` with both
groups nonempty. -/
def lastMidSplit (run : List Char) : Option (List Char × List Char) :=
  ((infixSplits [']', '-', '>', '('] run).filter
    (fun p => !p.1.isEmpty && !p.2.isEmpty)).getLast?

/-- Try to match `\(([^)]+)\)-\[:([^)]+)\]->\(([^)]+)\)` at the start of `s`.
Returns `(g1, g2, g3, rest-after-match)` on success. -/
def matchDirectedAt (s : List Char) : Option (List Char × List Char × List Char × List Char) :=
  match s with
  | '(' :: t =>
    match t.takeWhile (· != ')'), t.dropWhile (· != ')') with
    | g1h :: g1t, ')' :: '-' :: '[' :: ':' :: r3 =>
      match r3.dropWhile (· != ')') with
      | ')' :: rest =>
        match lastMidSplit (r3.takeWhile (· != ')')) with
        | some (g2, g3) => some (g1h :: g1t, g2, g3, rest)
        | none => none
      | _ => none
    | _, _ => none
  | _ => none

/-- Try to match `\(([^)]+)\)-\[:妻子\]->\(([^)]+)\)` at the start of `s`.
Returns `(g1, g2, rest-after-match)` on success. -/
def matchWifeAt (s : List Char) : Option (List Char × List Char × List Char) :=
  match s with
  | '(' :: t =>
    let g1 := t.takeWhile (· != ')')
    let r1 := t.dropWhile (· != ')')
    if g1.isEmpty then none else
    match r1 with
    | ')' :: '-' :: '[' :: ':' :: r3 =>
      if startsWithL ['妻', '子', ']', '-', '>', '('] r3 then
        let r4 := r3.drop 6
        let g2 := r4.takeWhile (· != ')')
        let r5 := r4.dropWhile (· != ')')
        if g2.isEmpty then none else
        match r5 with
        | ')' :: rest => some (g1, g2, rest)
        | _ => none
      else none
    | _ => none
  | _ => none

/-- One global-replace pass (JS `String.replace` with a `/g` regex): scan
left to right; at a match emit the replacement and continue after the matched
span; otherwise keep the character. Fuel bounds the scan (the input length
suffices: every step either consumes a character or a nonempty match). -/
def replaceScan (matchAt : List Char → Option (List Char × List Char)) :
    Nat → List Char → List Char
  | 0, s => s
  | _ + 1, [] => []
  | fuel + 1, c :: t =>
    match matchAt (c :: t) with
    | some (repl, rest) => repl ++ replaceScan matchAt fuel rest
    | none => c :: replaceScan matchAt fuel t

/-- Match-and-replace step for the direction-reversing rewrite
`($3)-[:$2]->($1)`. -/
def revMatchAt (s : List Char) : Option (List Char × List Char) :=
  match matchDirectedAt s with
  | some (g1, g2, g3, rest) =>
    some ('(' :: g3 ++ [')', '-', '[', ':'] ++ g2 ++ [']', '-', '>', '('] ++ g1 ++ [')'], rest)
  | none => none

/-- Match-and-replace step for the direction-stripping rewrite
`($1)-[:$2]-($3)`. -/
def undirMatchAt (s : List Char) : Option (List Char × List Char) :=
  match matchDirectedAt s with
  | some (g1, g2, g3, rest) =>
    some ('(' :: g1 ++ [')', '-', '[', ':'] ++ g2 ++ [']', '-', '('] ++ g3 ++ [')'], rest)
  | none => none

/-- Match-and-replace step for the 妻子 force-undirected rewrite
`($1)-[:妻子]-($2)`. -/
def wifeMatchAt (s : List Char) : Option (List Char × List Char) :=
  match matchWifeAt s with
  | some (g1, g2, rest) =>
    some ('(' :: g1 ++ [')', '-', '[', ':', '妻', '子', ']', '-', '('] ++ g2 ++ [')'], rest)
  | none => none

/-- `cypherQuery.replace(/\(([^)]+)\)-\[:([^)]+)\]->\(([^)]+)\)/g, '($3)-[:$2]->($1)')`. -/
def reverseDirected (q : String) : String :=
  ⟨replaceScan revMatchAt q.data.length q.data⟩

/-- `cypherQuery.replace(/\(([^)]+)\)-\[:([^)]+)\]->\(([^)]+)\)/g, '($1)-[:$2]-($3)')`. -/
def stripDirection (q : String) : String :=
  ⟨replaceScan undirMatchAt q.data.length q.data⟩

/-- `cypherQuery.replace(/\(([^)]+)\)-\[:妻子\]->\(([^)]+)\)/g, '($1)-[:妻子]-($2)')`. -/
def wifeReplace (q : String) : String :=
  ⟨replaceScan wifeMatchAt q.data.length q.data⟩

/-- The always-on ambiguous-relationship rewrite, as guarded in the source:
`if (cypherQuery.includes('妻子')) { cypherQuery = cypherQuery.replace(...) }`
(src/app/api/chat/route.ts:286-290). -/
def applyWifeRewrite (q : String) : String :=
  if jsIncludes q "妻子" then wifeReplace q else q

/-- Does the query contain a directed relationship pattern (a span the source
regexes would match)? -/
def hasDirectedPatternL : List Char → Bool
  | [] => false
  | c :: t => (matchDirectedAt (c :: t)).isSome || hasDirectedPatternL t

/-- String-level version of `hasDirectedPatternL`. -/
def hasDirectedPattern (q : String) : Bool :=
  hasDirectedPatternL q.data

/-- Does the text contain a directed 妻子 pattern (a span the 妻子 regex
would match)? -/
def hasWifePatternL : List Char → Bool
  | [] => false
  | c :: t => (matchWifeAt (c :: t)).isSome || hasWifePatternL t

/-- String-level version of `hasWifePatternL`. -/
def hasWifePattern (q : String) : Bool :=
  hasWifePatternL q.data

/-- The source's own retry guard: `cypherQuery.includes('->')`. -/
def containsArrow (q : String) : Bool :=
  jsIncludes q "->"

/-! ## Empty-result repair retries (src/app/api/chat/route.ts:325-341) -/

/-- The record shape returned by `executeQuery` (src/lib/neo4j.ts:167-170). -/
structure QueryResult where
  nodes : List RawNode
  relationships : List RawRel
  deriving Repr, DecidableEq

/-- Shallow embedding of the zero-result repair block: `exec` is the database
oracle (`executeQuery` specialised to the session), the returned list is the
sequence of queries executed, in order; the returned result is the one the
route continues with. Mirrors src/app/api/chat/route.ts:325-341. -/
def executeWithRepair (exec : String → QueryResult) (q : String) :
    QueryResult × List String :=
  let r0 := exec q
  if r0.nodes.length == 0 then
    if containsArrow q then
      let q1 := reverseDirected q
      let r1 := exec q1
      if r1.nodes.length == 0 && containsArrow q then
        let q2 := stripDirection q
        (exec q2, [q, q1, q2])
      else (r1, [q, q1])
    else (r0, [q])
  else (r0, [q])

/-! ## Query synthesizer response parsing (src/lib/openai.ts, `generateCypherQuery`)

The LLM response `content` is parsed defensively:
  (a) optionally extract a fenced code block (regex
      markdown-fence `(?:json)?\s*([\s\S]*?)\s*` fence, lazy group);
  (b) optionally narrow to the first-brace..last-brace span (`/\x7b[\s\S]*\x7d/`, greedy);
  (c) `JSON.parse` the result; a parse with a truthy `cypherQuery` member wins;
  (d) otherwise regex-extract `cypherQuery["\s:]+([^"]+)` (and the analogous
      `explanation` pattern) from the raw content;
  (e) otherwise a fixed default query.
JS values coming out of `JSON.parse` are modelled by `Json`; JS truthiness by
`jsTruthy`. -/

/-- First occurrence split: `input = pre ++ sep ++ post`. -/
def splitAtSub (sep : List Char) : List Char → Option (List Char × List Char)
  | [] => if sep.isEmpty then some ([], []) else none
  | c :: t =>
    if startsWithL sep (c :: t) then some ([], (c :: t).drop sep.length)
    else (splitAtSub sep t).map (fun p => (c :: p.1, p.2))

/-- The `\x7b` character, kept out of string literals. -/
def braceOpen : Char := Char.ofNat 123

/-- The `\x7d` character, kept out of string literals. -/
def braceClose : Char := Char.ofNat 125

/-- A backtick character. -/
def backtick : Char := Char.ofNat 96

/-- The markdown fence `backtick backtick backtick`. -/
def tripleBacktick : List Char := [backtick, backtick, backtick]

/-- The capture of the fenced-code-block regex (lazy inner group, greedy
`\s*` on both sides of it): text between the first fence (with an optional
`json` tag and leading whitespace skipped) and the next fence, with trailing
whitespace stripped. `none` when the regex does not match. -/
def extractCodeBlock (s : List Char) : Option (List Char) :=
  match splitAtSub tripleBacktick s with
  | none => none
  | some (_, afterOpen) =>
    let body := if startsWithL ['j', 's', 'o', 'n'] afterOpen then afterOpen.drop 4 else afterOpen
    let body2 := body.dropWhile Char.isWhitespace
    match splitAtSub tripleBacktick body2 with
    | none => none
    | some (inner, _) => some ((inner.reverse.dropWhile Char.isWhitespace).reverse)

/-- The capture of the greedy brace-span regex: from the first opening brace
to the last closing brace after it. `none` when the regex does not match. -/
def extractBraceSpan (s : List Char) : Option (List Char) :=
  match splitAtSub [braceOpen] s with
  | none => none
  | some (_, afterOpen) =>
    match ((infixSplits [braceClose] afterOpen).map Prod.fst).getLast? with
    | none => none
    | some inner => some (braceOpen :: inner ++ [braceClose])

/-- A JavaScript value as produced by `JSON.parse`. -/
inductive Json where
  | str : String → Json
  | num : Int → Json
  | bool : Bool → Json
  | null : Json
  | arr : List Json → Json
  | obj : List (String × Json) → Json
  deriving Repr, Inhabited

/-- JS truthiness of a parsed value. -/
def jsTruthy : Json → Bool
  | .str s => !s.isEmpty
  | .num n => n != 0
  | .bool b => b
  | .null => false
  | .arr _ => true
  | .obj _ => true

/-- JS member access `v.k` on a parsed value (`none` models `undefined`);
with duplicate keys the last wins, as in `JSON.parse`. -/
def getField : Json → String → Option Json
  | .obj fields, k => ((fields.filter (fun p => p.1 == k)).getLast?).map Prod.snd
  | _, _ => none

/-- Parse a JSON string body (after the opening quote), handling the
single-character escapes; `\uXXXX` escapes are not modelled (the parser
rejects them, which only narrows the strings this model accepts). -/
def parseJStr : Nat → List Char → Option (String × List Char)
  | 0, _ => none
  | _ + 1, [] => none
  | fuel + 1, c :: t =>
    if c == '"' then some ("", t)
    else if c == '\\' then
      match t with
      | [] => none
      | e :: t2 =>
        let esc : Option Char :=
          if e == '"' then some '"'
          else if e == '\\' then some '\\'
          else if e == '/' then some '/'
          else if e == 'n' then some '\n'
          else if e == 't' then some '\t'
          else if e == 'r' then some '\r'
          else if e == 'b' then some (Char.ofNat 8)
          else if e == 'f' then some (Char.ofNat 12)
          else none
        match esc with
        | some ec => (parseJStr fuel t2).map (fun p => (⟨ec :: p.1.data⟩, p.2))
        | none => none
    else (parseJStr fuel t).map (fun p => (⟨c :: p.1.data⟩, p.2))

/-- Parse a JSON integer (fractions and exponents are not modelled; the
parser rejects them). -/
def parseJNum (s : List Char) : Option (Int × List Char) :=
  let neg := match s with | '-' :: _ => true | _ => false
  let s1 := if neg then s.drop 1 else s
  let ds := s1.takeWhile Char.isDigit
  let rest := s1.dropWhile Char.isDigit
  if ds.isEmpty then none
  else
    match rest with
    | '.' :: _ => none
    | 'e' :: _ => none
    | 'E' :: _ => none
    | _ =>
      let n : Nat := ds.foldl (fun acc c => acc * 10 + (c.toNat - 48)) 0
      some (if neg then -(n : Int) else (n : Int), rest)

mutual

/-- Parse one JSON value (fuel-indexed recursive descent). -/
def parseJVal : Nat → List Char → Option (Json × List Char)
  | 0, _ => none
  | fuel + 1, s0 =>
    let s := s0.dropWhile Char.isWhitespace
    match s with
    | [] => none
    | c :: t =>
      if c == '"' then (parseJStr fuel t).map (fun p => (Json.str p.1, p.2))
      else if c == braceOpen then parseJObjBody fuel t
      else if c == '[' then parseJArrBody fuel t
      else if c == 't' then
        (if startsWithL ['r', 'u', 'e'] t then some (.bool true, t.drop 3) else none)
      else if c == 'f' then
        (if startsWithL ['a', 'l', 's', 'e'] t then some (.bool false, t.drop 4) else none)
      else if c == 'n' then
        (if startsWithL ['u', 'l', 'l'] t then some (.null, t.drop 3) else none)
      else (parseJNum s).map (fun p => (Json.num p.1, p.2))

/-- Parse an object body (after the opening brace). -/
def parseJObjBody : Nat → List Char → Option (Json × List Char)
  | 0, _ => none
  | fuel + 1, s0 =>
    let s := s0.dropWhile Char.isWhitespace
    match s with
    | [] => none
    | c :: t =>
      if c == braceClose then some (.obj [], t)
      else parseJObjFields fuel (c :: t) []

/-- Parse the remaining `"key": value` pairs of an object body. -/
def parseJObjFields : Nat → List Char → List (String × Json) → Option (Json × List Char)
  | 0, _, _ => none
  | fuel + 1, s0, acc =>
    let s := s0.dropWhile Char.isWhitespace
    match s with
    | '"' :: t =>
      match parseJStr fuel t with
      | some (k, r1) =>
        match r1.dropWhile Char.isWhitespace with
        | ':' :: r3 =>
          match parseJVal fuel r3 with
          | some (v, r4) =>
            match r4.dropWhile Char.isWhitespace with
            | ',' :: r6 => parseJObjFields fuel r6 (acc ++ [(k, v)])
            | c :: r6 =>
              if c == braceClose then some (.obj (acc ++ [(k, v)]), r6) else none
            | [] => none
          | none => none
        | _ => none
      | none => none
    | _ => none

/-- Parse an array body (after the opening bracket). -/
def parseJArrBody : Nat → List Char → Option (Json × List Char)
  | 0, _ => none
  | fuel + 1, s0 =>
    let s := s0.dropWhile Char.isWhitespace
    match s with
    | ']' :: t => some (.arr [], t)
    | _ => parseJArrItems fuel s []

/-- Parse the remaining items of an array body. -/
def parseJArrItems : Nat → List Char → List Json → Option (Json × List Char)
  | 0, _, _ => none
  | fuel + 1, s0, acc =>
    match parseJVal fuel s0 with
    | some (v, r1) =>
      match r1.dropWhile Char.isWhitespace with
      | ',' :: r2 => parseJArrItems fuel r2 (acc ++ [v])
      | ']' :: r2 => some (.arr (acc ++ [v]), r2)
      | _ => none
    | none => none

end

/-- The model of `JSON.parse`: parse one value and require only trailing
whitespace after it. -/
def jsonParse (s : List Char) : Option Json :=
  match parseJVal (2 * s.length + 4) s with
  | some (v, rest) => if (rest.dropWhile Char.isWhitespace).isEmpty then some v else none
  | none => none

/-- Characters matched by the `["\s:]` class of the raw-text extraction
regexes. -/
def isClassChar (c : Char) : Bool :=
  c == '"' || c == ':' || c.isWhitespace

/-- Match `lit` then `["\s:]+` then the group `([^"]+)` at the start of `s`,
with the greedy-with-backtracking behaviour of the JS engine; returns the
captured group. When the class run reaches the end of the string the engine
backtracks into it, which can leave a single space or colon as the capture. -/
def literalClassGroupMatchAt (lit : List Char) (s : List Char) : Option (List Char) :=
  if startsWithL lit s then
    let rest := s.drop lit.length
    let m := rest.takeWhile isClassChar
    let rest2 := rest.drop m.length
    if m.isEmpty then none
    else
      match rest2 with
      | _ :: _ => some (rest2.takeWhile (· != '"'))
      | [] =>
        let mrev := m.reverse
        let rest3 := mrev.dropWhile (· == '"')
        match rest3 with
        | g :: pre => if pre.isEmpty then none else some [g]
        | [] => none
  else none

/-- Leftmost application of `literalClassGroupMatchAt` (JS `String.match`
scanning). -/
def scanLiteralClassGroup (lit : List Char) : List Char → Option (List Char)
  | [] => none
  | c :: t =>
    match literalClassGroupMatchAt lit (c :: t) with
    | some g => some g
    | none => scanLiteralClassGroup lit t

/-- The structured result of `generateCypherQuery`; the fields are `Json`
because the source returns whatever `JSON.parse` produced for them. -/
structure SynthResult where
  cypherQuery : Json
  explanation : Json
  deriving Repr

/-- The default returned when the inner parse strategies all fail
(src/lib/openai.ts lines 484-488). -/
def defaultQueryResult : SynthResult :=
  ⟨.str "MATCH (n) RETURN n LIMIT 25",
   .str "无法从LLM响应中提取有效的查询。使用默认查询。"⟩

/-- The fallback returned by the outer catch (LLM call failed, missing key,
empty response; src/lib/openai.ts lines 490-498). -/
def errorFallbackResult : SynthResult :=
  ⟨.str "MATCH (n) RETURN n LIMIT 25",
   .str "处理您的问题时遇到错误。请检查您的OpenAI API密钥和连接设置是否正确。"⟩

/-- The inner catch: regex-extract `cypherQuery`/`explanation` literals from
the raw content, else the default. -/
def parseFallbackFromText (content : List Char) : SynthResult :=
  match scanLiteralClassGroup "cypherQuery".data content with
  | some g =>
    ⟨.str ⟨trimL g⟩,
     match scanLiteralClassGroup "explanation".data content with
     | some e => .str ⟨trimL e⟩
     | none => .str "未提供查询解释"⟩
  | none => defaultQueryResult

/-- The `jsonContent` the source hands to `JSON.parse`: the code-block
capture when the block regex matches, then narrowed to the brace span when
that regex matches. -/
def extractedJsonContent (c : List Char) : List Char :=
  let j1 := match extractCodeBlock c with | some b => b | none => c
  match extractBraceSpan j1 with | some b => b | none => j1

/-- The parse section of `generateCypherQuery` (src/lib/openai.ts 440-489):
JSON route first; a missing or falsy `cypherQuery` member throws into the
inner catch, which falls back to raw-text extraction. -/
def parseLLMContent (content : String) : SynthResult :=
  let c := content.data
  match jsonParse (extractedJsonContent c) with
  | some parsed =>
    match getField parsed "cypherQuery" with
    | some cq =>
      if jsTruthy cq then
        ⟨cq,
         match getField parsed "explanation" with
         | some e => if jsTruthy e then e else .str "未提供查询解释"
         | none => .str "未提供查询解释"⟩
      else parseFallbackFromText c
    | none => parseFallbackFromText c
  | none => parseFallbackFromText c

/-- The outcome of the LLM chat-completion call: `failure` covers network and
auth errors, a missing choice list, and every other thrown condition. -/
inductive LLMOutcome where
  | failure
  | content (s : String)
  deriving Repr, DecidableEq

/-- Shallow embedding of `generateCypherQuery` at its contract boundary
(src/lib/openai.ts 348-499): a missing API key, a failed call, and an empty
response body all land in the outer catch; otherwise the content is parsed. -/
def generateCypherQuery (apiKeyAvailable : Bool) (outcome : LLMOutcome) : SynthResult :=
  if !apiKeyAvailable then errorFallbackResult
  else
    match outcome with
    | .failure => errorFallbackResult
    | .content s => if s.isEmpty then errorFallbackResult else parseLLMContent s

/-! ## Schema introspector: `getGraphSchema` (src/lib/neo4j.ts:220-253) -/

/-- A database-level failure (connection or query error). -/
inductive DbError where
  | err (message : String)
  deriving Repr, DecidableEq

/-- The schema descriptor returned by introspection. -/
structure GraphSchema where
  nodeLabels : List String
  relationshipTypes : List String
  deriving Repr, DecidableEq

/-- Shallow embedding of `getGraphSchema`: the two introspection queries are
oracles; a failure of either (driver connection failures fold into the
first) is caught and yields the empty descriptor. -/
def getGraphSchema (labelsResult relTypesResult : Except DbError (List String)) :
    GraphSchema :=
  match labelsResult with
  | .error _ => ⟨[], []⟩
  | .ok ls =>
    match relTypesResult with
    | .error _ => ⟨[], []⟩
    | .ok ts => ⟨ls, ts⟩

/-! ## Chat orchestrator: request validation and the pre-query phases
(src/app/api/chat/route.ts:42-146) -/

/-- A conversation message. -/
structure Message where
  role : String
  content : String
  deriving Repr, DecidableEq

/-- The parsed request body. Every field is `Option`: `none` models an
absent/undefined field. The source's falsiness checks on the string fields
also treat the empty string as missing, which `jsPresent` captures. -/
structure ReqBody where
  messages : Option (List Message)
  openaiApiKey : Option String
  openaiBaseUrl : Option String
  neo4jUri : Option String
  neo4jUsername : Option String
  neo4jPassword : Option String
  modelName : Option String
  deriving Repr, DecidableEq

/-- JS truthiness of an optional string field (absent, null and `""` are
falsy). -/
def jsPresent : Option String → Bool
  | none => false
  | some s => !s.isEmpty

/-- The validation message for a missing/unparsable body or missing
`messages` field. -/
def messagesErrorMessage : String :=
  "Invalid request: messages array is required"

/-- The validation message for a missing OpenAI API key. -/
def apiKeyErrorMessage : String :=
  "OpenAI API密钥未提供。请在应用设置中配置有效的API密钥。"

/-- The validation message for incomplete Neo4j connection parameters. -/
def neo4jErrorMessage : String :=
  "Neo4j数据库连接参数不完整。请在应用设置中配置数据库URI、用户名和密码。"

/-- An externally observable step of the turn before query execution. -/
inductive TurnStep where
  | dbSchemaFetch
  | dbNodeProps
  | llmSynthesis (schema : GraphSchema)
  deriving Repr

/-- The outcome of the turn's validation-and-synthesis stage. -/
inductive TurnOutcome where
  | validationError (status : Nat) (message : String)
  | proceeded (synth : SynthResult)
  deriving Repr

/-- The oracles a turn consumes: the two schema-introspection queries and the
LLM call. -/
structure TurnOracles where
  labelsResult : Except DbError (List String)
  relTypesResult : Except DbError (List String)
  llmOutcome : LLMOutcome

/-- Shallow embedding of the `POST` handler from body parsing through query
synthesis (src/app/api/chat/route.ts:42-283): validation rejects in order
(missing body/messages field, missing API key, incomplete Neo4j parameters)
with no external call; on success the schema phase runs (internally
error-absorbing) and the synthesizer is invoked with the resulting schema.
The second component is the ordered list of external steps taken. -/
def runTurnPrefix (body : Option ReqBody) (o : TurnOracles) :
    TurnOutcome × List TurnStep :=
  match body with
  | none => (.validationError 400 messagesErrorMessage, [])
  | some b =>
    if b.messages.isNone then (.validationError 400 messagesErrorMessage, [])
    else if !jsPresent b.openaiApiKey then (.validationError 400 apiKeyErrorMessage, [])
    else if !jsPresent b.neo4jUri || !jsPresent b.neo4jUsername || !jsPresent b.neo4jPassword then
      (.validationError 400 neo4jErrorMessage, [])
    else
      let schema := getGraphSchema o.labelsResult o.relTypesResult
      let synth := generateCypherQuery true o.llmOutcome
      (.proceeded synth, [.dbSchemaFetch, .dbNodeProps, .llmSynthesis schema])

/-! ## Table-shaped results (src/app/api/chat/route.ts:445-483) -/

/-- A JS value inside a Neo4j record cell: a scalar, `null`, or an object
(an entity exposes a `properties` member; other driver objects do not). -/
inductive JsVal where
  | str (s : String)
  | num (n : Int)
  | nullV
  | obj (fields : List (String × JsVal))
  deriving Repr, Inhabited

/-- JS truthiness of a record cell value. -/
def jsValTruthy : JsVal → Bool
  | .str s => !s.isEmpty
  | .num n => n != 0
  | .nullV => false
  | .obj _ => true

/-- Last-wins field lookup on a cell object (`none` models `undefined`). -/
def jsValField (fields : List (String × JsVal)) (k : String) : Option JsVal :=
  ((fields.filter (fun p => p.1 == k)).getLast?).map Prod.snd

/-- ASCII lowercasing of one character (`String.prototype.toLowerCase` on
the ASCII range, which covers Cypher keywords). -/
def charToLower (c : Char) : Char :=
  if 'A' ≤ c && c ≤ 'Z' then Char.ofNat (c.toNat + 32) else c

/-- Lowercase a character list. -/
def toLowerL (s : List Char) : List Char :=
  s.map charToLower

/-- The guard deciding whether the table path runs
(src/app/api/chat/route.ts:449-451): the lowercased query text must contain
`return` and either the literal `.name` or `as `, anywhere in the text. -/
def shouldProcessTable (q : String) : Bool :=
  hasSubL "return".data (toLowerL q.data) &&
    (hasSubL ".name".data (toLowerL q.data) || hasSubL "as ".data (toLowerL q.data))

/-- `record.get(column)`: first-match lookup of a field in a record. -/
def recordGet (rec : List (String × JsVal)) (k : String) : JsVal :=
  match rec.find? (fun p => p.1 == k) with
  | some p => p.2
  | none => .nullV

/-- Cell post-processing: an object with a truthy `properties` member is
replaced by that member; everything else passes through unchanged
(src/app/api/chat/route.ts:466-471). -/
def flattenCell (v : JsVal) : JsVal :=
  match v with
  | .obj fields =>
    match jsValField fields "properties" with
    | some p => if jsValTruthy p then p else v
    | none => v
  | _ => v

/-- The table result. -/
structure TableData where
  columns : List String
  rows : List (List (String × JsVal))
  deriving Repr

/-- Build the table from the raw records: columns are the first record's
keys; every row maps those columns through `flattenCell`; an empty record
list leaves the table undefined (src/app/api/chat/route.ts:460-477). -/
def processTableRecords (records : List (List (String × JsVal))) : Option TableData :=
  match records with
  | [] => none
  | r0 :: _ =>
    some ⟨r0.map Prod.fst,
      records.map (fun rec => (r0.map Prod.fst).map (fun c => (c, flattenCell (recordGet rec c))))⟩

/-- The table stage of the route: runs only when `shouldProcessTable`
accepts the query text. -/
def tableStage (q : String) (records : List (List (String × JsVal))) : Option TableData :=
  if shouldProcessTable q then processTableRecords records else none

/-- Modelled from the spec: "the query text's return clause appears to
project named scalar/property values (heuristically: contains `.property`
access or an `AS` alias)". The return clause is the text after the first
case-insensitive `return`; a property access is a `.` immediately followed
by a letter; an alias is the case-insensitive token `as `. This definition
exists only to compare the spec's heuristic with the code's guard. -/
def specReturnClauseProjectsNamedValues (q : String) : Bool :=
  match splitAtSub "return".data (toLowerL q.data) with
  | none => false
  | some (_, clause) => hasPropAccess clause || hasSubL "as ".data clause
where
  hasPropAccess : List Char → Bool
    | [] => false
    | '.' :: c :: t => c.isAlpha || hasPropAccess (c :: t)
    | _ :: t => hasPropAccess t

/-! # Theorems -/

/-! ## Helper lemmas -/

/-- A `none` result of `lastIndexOf` means the id is absent. -/
theorem lastIndexOf_none_iff (ids : List String) (id : String) :
    lastIndexOf ids id = none ↔ id ∉ ids := by
  induction ids with
  | nil => simp [lastIndexOf]
  | cons x t ih =>
    simp only [lastIndexOf, List.mem_cons]
    cases h : lastIndexOf t id with
    | some k =>
      have hmem : id ∈ t := by
        by_contra hn
        exact absurd (ih.mpr hn) (by simp [h])
      simp [hmem]
    | none =>
      have hni : id ∉ t := ih.mp h
      by_cases hx : x = id
      · simp [hx]
      · simp [hx, hni, Ne.symm hx]

/-- A `some` result of `lastIndexOf` is a valid index holding the id. -/
theorem lastIndexOf_some_spec (ids : List String) (id : String) (k : Nat)
    (h : lastIndexOf ids id = some k) :
    ∃ hk : k < ids.length, ids.get ⟨k, hk⟩ = id := by
  induction ids generalizing k with
  | nil => simp [lastIndexOf] at h
  | cons x t ih =>
    simp only [lastIndexOf] at h
    cases h' : lastIndexOf t id with
    | some k' =>
      rw [h'] at h
      obtain rfl : k' + 1 = k := by simpa using h
      obtain ⟨hk', hget⟩ := ih k' h'
      exact ⟨Nat.succ_lt_succ hk', by simpa using hget⟩
    | none =>
      rw [h'] at h
      by_cases hx : x = id
      · simp only [hx, beq_self_eq_true, if_true] at h
        obtain rfl : 0 = k := by simpa using h
        exact ⟨Nat.succ_pos _, hx⟩
      · simp [hx] at h

/-! ## C10 — totality of the normalizer at its public boundary -/

/-- C10: `transformNeo4jResultToGraphData` is total at its public boundary:
for every input that is null/undefined, lacks a `nodes` field, or lacks a
`relationships` field, it returns the empty canonical graph
`(nodes: [], links: [])` rather than throwing. -/
theorem C10_transform_total_on_degenerate_inputs :
    transformNeo4jResultToGraphData none = ⟨[], []⟩ ∧
    (∀ rels, transformNeo4jResultToGraphData (some ⟨none, rels⟩) = ⟨[], []⟩) ∧
    (∀ ns, transformNeo4jResultToGraphData (some ⟨some ns, none⟩) = ⟨[], []⟩) := by
  refine ⟨rfl, fun rels => ?_, fun ns => rfl⟩
  cases rels <;> rfl

/-! ## C1 — normalization of nodes and links -/

/-- C1 counterexample: an input with 3 nodes, 2 valid relationships and 1
relationship whose end node id `"4"` matches no node normalizes to exactly
**3** links, not 2: the dangling relationship is not excluded; it is emitted
with an undefined (`none`) target index. -/
theorem C1_counterexample :
    (transformNeo4jResultToGraphData (some ⟨some
        [⟨"1", some ["A"], some []⟩, ⟨"2", some ["B"], some []⟩, ⟨"3", some ["C"], some []⟩],
      some
        [⟨"r1", "T", "1", "2", some []⟩, ⟨"r2", "T", "2", "3", some []⟩,
         ⟨"r3", "T", "1", "4", some []⟩]⟩)).links.length = 3 ∧
    (transformNeo4jResultToGraphData (some ⟨some
        [⟨"1", some ["A"], some []⟩, ⟨"2", some ["B"], some []⟩, ⟨"3", some ["C"], some []⟩],
      some
        [⟨"r1", "T", "1", "2", some []⟩, ⟨"r2", "T", "2", "3", some []⟩,
         ⟨"r3", "T", "1", "4", some []⟩]⟩)).links.getLast?
      = some ⟨some 0, none, "T", []⟩ := by
  decide

/-- C1 amended: the output node id list equals the input node id list (so
the id sets agree with the deduplicated input id set), and one link is
emitted per input relationship — dangling relationships are *not* excluded.
A link's endpoint index is `some k` exactly when the endpoint id occurs
among the node ids, and then `k` is a valid position whose node id matches
the relationship endpoint; an absent endpoint id yields an undefined
(`none`) index instead of exclusion. -/
theorem C1_amended_normalizer (ns : List RawNode) (rs : List RawRel)
    (g : GraphData)
    (hg : g = transformNeo4jResultToGraphData (some ⟨some ns, some rs⟩)) :
    g.nodes.map GNode.id = ns.map RawNode.id ∧
    (∀ x, x ∈ g.nodes.map GNode.id ↔ x ∈ (ns.map RawNode.id).dedup) ∧
    g.links.length = rs.length ∧
    List.Forall₂ (fun (l : GLink) (rel : RawRel) =>
        l.source.elim (rel.startNodeId ∉ ns.map RawNode.id)
          (fun k => ∃ hk : k < g.nodes.length,
            (g.nodes.get ⟨k, hk⟩).id = rel.startNodeId) ∧
        l.target.elim (rel.endNodeId ∉ ns.map RawNode.id)
          (fun k => ∃ hk : k < g.nodes.length,
            (g.nodes.get ⟨k, hk⟩).id = rel.endNodeId))
      g.links rs := by
  subst hg
  simp only [transformNeo4jResultToGraphData]
  have hids : (ns.map (fun n =>
      (⟨n.id,
        (match n.labels with
         | some (l :: _) => l
         | _ => "Node"),
        n.properties.getD []⟩ : GNode))).map GNode.id = ns.map RawNode.id := by
    simp [List.map_map]
  refine ⟨hids, ?_, by simp, ?_⟩
  · intro x
    rw [hids, List.mem_dedup]
  · rw [List.forall₂_map_left_iff, List.forall₂_same]
    intro rel _
    constructor
    · cases hq : lastIndexOf (ns.map RawNode.id) rel.startNodeId with
      | none =>
        simpa [hids, hq] using (lastIndexOf_none_iff (ns.map RawNode.id) rel.startNodeId).mp hq
      | some k =>
        obtain ⟨hk, hget⟩ := lastIndexOf_some_spec _ _ _ hq
        refine ?_
        simp only [hids, hq, Option.elim]
        refine ⟨by simpa using hk, ?_⟩
        have := hget
        simp only [List.get_eq_getElem, List.getElem_map] at this ⊢
        simpa using this
    · cases hq : lastIndexOf (ns.map RawNode.id) rel.endNodeId with
      | none =>
        simpa [hids, hq] using (lastIndexOf_none_iff (ns.map RawNode.id) rel.endNodeId).mp hq
      | some k =>
        obtain ⟨hk, hget⟩ := lastIndexOf_some_spec _ _ _ hq
        simp only [hids, hq, Option.elim]
        refine ⟨by simpa using hk, ?_⟩
        have := hget
        simp only [List.get_eq_getElem, List.getElem_map] at this ⊢
        simpa using this

/-- C1 amended, witness: the characterization applied to the concrete
3-node, 3-relationship input of the counterexample. -/
theorem C1_amended_normalizer_witness :
    (transformNeo4jResultToGraphData (some ⟨some
        [⟨"1", some ["A"], some []⟩, ⟨"2", some ["B"], some []⟩, ⟨"3", some ["C"], some []⟩],
      some
        [⟨"r1", "T", "1", "2", some []⟩, ⟨"r2", "T", "2", "3", some []⟩,
         ⟨"r3", "T", "1", "4", some []⟩]⟩)).nodes.map GNode.id = ["1", "2", "3"] ∧
    (transformNeo4jResultToGraphData (some ⟨some
        [⟨"1", some ["A"], some []⟩, ⟨"2", some ["B"], some []⟩, ⟨"3", some ["C"], some []⟩],
      some
        [⟨"r1", "T", "1", "2", some []⟩, ⟨"r2", "T", "2", "3", some []⟩,
         ⟨"r3", "T", "1", "4", some []⟩]⟩)).links.length = 3 :=
  ⟨(C1_amended_normalizer _ _ _ rfl).1,
   (C1_amended_normalizer _ _ _ rfl).2.2.1⟩

/-! ## C2 — retry ordering of the empty-result repair -/

/-- `startsWithL` decides list-prefix. -/
theorem startsWithL_iff (a b : List Char) : startsWithL a b = true ↔ a <+: b := by
  induction a generalizing b with
  | nil => simp [startsWithL]
  | cons x t ih =>
    cases b with
    | nil => simp [startsWithL]
    | cons y u =>
      simp only [startsWithL, Bool.and_eq_true, beq_iff_eq, ih, List.cons_prefix_cons]

/-- `hasSubL` decides list-infix. -/
theorem hasSubL_iff (n h : List Char) : hasSubL n h = true ↔ n <:+: h := by
  induction h with
  | nil =>
    simp [hasSubL, List.isEmpty_iff]
  | cons c t ih =>
    simp only [hasSubL, Bool.or_eq_true, startsWithL_iff, ih, List.infix_cons_iff]

/-- Every element of `infixSplits sep xs` reassembles to `xs`. -/
theorem infixSplits_spec (sep : List Char) (xs : List Char) :
    ∀ p ∈ infixSplits sep xs, p.1 ++ sep ++ p.2 = xs := by
  induction xs with
  | nil =>
    intro p hp
    simp only [infixSplits] at hp
    by_cases hsep : sep.isEmpty
    · rw [if_pos hsep] at hp
      simp only [List.mem_singleton] at hp
      subst hp
      simp [List.isEmpty_iff.mp hsep]
    · rw [if_neg hsep] at hp
      exact absurd hp (List.not_mem_nil _)
  | cons c t ih =>
    intro p hp
    simp only [infixSplits, List.mem_append, List.mem_map] at hp
    rcases hp with hp | ⟨q, hq, rfl⟩
    · by_cases hs : startsWithL sep (c :: t) = true
      · rw [if_pos hs] at hp
        simp only [List.mem_singleton] at hp
        subst hp
        obtain ⟨u, hu⟩ := (startsWithL_iff sep (c :: t)).mp hs
        simp only [List.nil_append, ← hu, List.drop_left]
      · rw [if_neg hs] at hp
        exact absurd hp (List.not_mem_nil _)
    · have := ih q hq
      simpa using congrArg (c :: ·) this

/-- Reconstruction: a successful directed-pattern match decomposes the
input text around the literal `]->(`. -/
theorem matchDirectedAt_eq (s : List Char) (g1 g2 g3 rest : List Char)
    (h : matchDirectedAt s = some (g1, g2, g3, rest)) :
    s = '(' :: g1 ++ [')', '-', '[', ':'] ++ g2 ++ [']', '-', '>', '('] ++ g3 ++ ')' :: rest := by
  unfold matchDirectedAt at h
  split at h
  next t =>
    split at h
    next g1h g1t r3 heq1 heq2 =>
      split at h
      next rest' heq4 =>
        split at h
        next g2' g3' heqmid =>
          simp only [Option.some.injEq, Prod.mk.injEq] at h
          obtain ⟨rfl, rfl, rfl, rfl⟩ := h
          have h1 : t.takeWhile (· != ')') ++ t.dropWhile (· != ')') = t :=
            List.takeWhile_append_dropWhile _ t
          have h2 : r3.takeWhile (· != ')') ++ r3.dropWhile (· != ')') = r3 :=
            List.takeWhile_append_dropWhile _ r3
          have hmid : g2' ++ [']', '-', '>', '('] ++ g3' = r3.takeWhile (· != ')') := by
            have hfil : (g2', g3') ∈ (infixSplits [']', '-', '>', '('] (r3.takeWhile (· != ')'))).filter
                (fun p => !p.1.isEmpty && !p.2.isEmpty) := by
              obtain ⟨hne, hx⟩ := List.mem_getLast?_eq_getLast (Option.mem_def.mpr heqmid)
              exact hx ▸ List.getLast_mem hne
            simpa [List.append_assoc] using
              infixSplits_spec _ _ _ (List.mem_filter.mp hfil).1
          rw [heq1, heq2] at h1
          rw [heq4, ← hmid] at h2
          rw [← h1, ← h2]
          simp [List.append_assoc]
        next => exact absurd h (by simp)
      next => exact absurd h (by simp)
    next => exact absurd h (by simp)
  next => exact absurd h (by simp)

/-- A directed-pattern match somewhere in the text implies the text contains
the arrow `->` (so the source's `includes('->')` retry guard fires). -/
theorem hasDirectedPatternL_arrow (s : List Char) (h : hasDirectedPatternL s = true) :
    hasSubL ['-', '>'] s = true := by
  induction s with
  | nil => simp [hasDirectedPatternL] at h
  | cons c t ih =>
    simp only [hasDirectedPatternL, Bool.or_eq_true] at h
    rcases h with h | h
    · obtain ⟨⟨g1, g2, g3, rest⟩, hm⟩ := Option.isSome_iff_exists.mp h
      have hdec := matchDirectedAt_eq _ _ _ _ _ hm
      rw [hasSubL_iff, hdec]
      exact ⟨'(' :: g1 ++ [')', '-', '[', ':'] ++ g2 ++ [']'],
             '(' :: g3 ++ ')' :: rest, by simp⟩
    · simp only [hasSubL, Bool.or_eq_true]
      exact Or.inr (ih h)

/-- C2: for every query containing a directed relationship pattern, when
direct execution yields zero nodes the repair engine executes exactly the
reversed-direction variant first; if that is still empty it executes exactly
the direction-stripped variant once more, whose result stands; if the
reversal yields nodes, its result stands and nothing further is executed.
The executed-query trace is `[q, reversed]` or `[q, reversed, undirected]`
and nothing else. -/
theorem C2_repair_retry_order (exec : String → QueryResult) (q : String)
    (hdir : hasDirectedPattern q = true)
    (hempty : (exec q).nodes = []) :
    executeWithRepair exec q =
      (if (exec (reverseDirected q)).nodes.length == 0 then
        (exec (stripDirection q), [q, reverseDirected q, stripDirection q])
       else
        (exec (reverseDirected q), [q, reverseDirected q])) := by
  have harrow : containsArrow q = true := hasDirectedPatternL_arrow q.data hdir
  cases h1 : (exec (reverseDirected q)).nodes.length == 0 <;>
    simp [executeWithRepair, hempty, harrow, h1]

/-- C2 witness: a concrete directed query against an always-empty database
executes the original, the reversed and the undirected variant, in that
order. -/
theorem C2_repair_retry_order_witness :
    executeWithRepair (fun _ => ⟨[], []⟩) "MATCH (a)-[:X]->(b) RETURN a,b" =
      (⟨[], []⟩,
       ["MATCH (a)-[:X]->(b) RETURN a,b",
        "MATCH (b)-[:X]->(a) RETURN a,b",
        "MATCH (a)-[:X]-(b) RETURN a,b"]) := by
  rw [C2_repair_retry_order (fun _ => ⟨[], []⟩) "MATCH (a)-[:X]->(b) RETURN a,b"
    (by decide) rfl]
  decide

/-! ## C8 — the always-on 妻子 rewrite and idempotence -/

/-- A text with no directed 妻子 pattern is left unchanged by the replace
scan. -/
theorem replaceScan_wife_no_pattern (fuel : Nat) (s : List Char)
    (h : hasWifePatternL s = false) :
    replaceScan wifeMatchAt fuel s = s := by
  induction fuel generalizing s with
  | zero => rfl
  | succ n ih =>
    cases s with
    | nil => rfl
    | cons c t =>
      cases hm : matchWifeAt (c :: t) with
      | some v => simp [hasWifePatternL, hm] at h
      | none =>
        have hw : wifeMatchAt (c :: t) = none := by simp [wifeMatchAt, hm]
        have h2 : hasWifePatternL t = false := by
          simpa [hasWifePatternL, hm] using h
        simp only [replaceScan, hw]
        rw [ih t h2]

/-- C8 counterexample: on the chained query
`(a)-[:妻子]->(b)-[:妻子]->(c)` the rewrite is **not** idempotent — the
first pass consumes the shared node `(b)` and skips the second directed
pattern, which a second pass then rewrites. -/
theorem C8_counterexample :
    applyWifeRewrite (applyWifeRewrite "(a)-[:妻子]->(b)-[:妻子]->(c)") ≠
      applyWifeRewrite "(a)-[:妻子]->(b)-[:妻子]->(c)" := by
  decide

/-- C8 amended: the rewrite leaves unchanged every query with no directed
妻子 pattern (in particular every already-undirected one); hence applying it
twice equals applying it once exactly when the first application leaves no
directed 妻子 pattern — which chained patterns sharing a node violate. -/
theorem C8_amended_wife_rewrite :
    (∀ q, hasWifePattern q = false → applyWifeRewrite q = q) ∧
    (∀ q, hasWifePattern (applyWifeRewrite q) = false →
      applyWifeRewrite (applyWifeRewrite q) = applyWifeRewrite q) := by
  have h1 : ∀ q, hasWifePattern q = false → applyWifeRewrite q = q := by
    intro q h
    unfold applyWifeRewrite
    split
    · show String.mk (replaceScan wifeMatchAt q.data.length q.data) = q
      rw [replaceScan_wife_no_pattern _ _ h]
    · rfl
  exact ⟨h1, fun q h => h1 _ h⟩

/-- C8 amended, witness: an already-undirected 妻子 query is left
unchanged. -/
theorem C8_amended_wife_rewrite_witness :
    applyWifeRewrite "MATCH (a)-[:妻子]-(b) RETURN a,b" =
      "MATCH (a)-[:妻子]-(b) RETURN a,b" :=
  C8_amended_wife_rewrite.1 _ (by decide)

/-! ## C3 — synthesizer fallback behaviour -/

/-- C3 counterexample: the response body `cypherQuery: " "` defeats every
JSON strategy, and the raw-text extraction captures the whitespace-only span
between the quotes, which trims to the **empty** query string — refuting
"the returned queryText is non-empty in every case". -/
theorem C3_counterexample :
    generateCypherQuery true (.content "cypherQuery: \x22 \x22") =
      ⟨.str "", .str "未提供查询解释"⟩ :=
  rfl

/-- C3 amended: the synthesizer never raises — a missing API key, a failed
LLM call and an empty body all yield the error fallback; when every parse
strategy fails the default query result is returned; both carry the query
`MATCH (n) RETURN n LIMIT 25` and a non-empty explanation. (The returned
queryText is nevertheless not non-empty in *every* case, per the
counterexample.) -/
theorem C3_amended_synthesizer_fallback :
    (∀ o, generateCypherQuery false o = errorFallbackResult) ∧
    (generateCypherQuery true .failure = errorFallbackResult) ∧
    (∀ content : String, content.isEmpty = false →
      jsonParse (extractedJsonContent content.data) = none →
      scanLiteralClassGroup "cypherQuery".data content.data = none →
      generateCypherQuery true (.content content) = defaultQueryResult) ∧
    errorFallbackResult.cypherQuery = .str "MATCH (n) RETURN n LIMIT 25" ∧
    defaultQueryResult.cypherQuery = .str "MATCH (n) RETURN n LIMIT 25" ∧
    jsTruthy errorFallbackResult.explanation = true ∧
    jsTruthy defaultQueryResult.explanation = true := by
  refine ⟨fun o => rfl, rfl, ?_, rfl, rfl, rfl, rfl⟩
  intro content hne hjson hscan
  have hstep : generateCypherQuery true (.content content) = parseLLMContent content := by
    simp [generateCypherQuery, hne]
  rw [hstep]
  simp only [parseLLMContent, hjson]
  simp only [parseFallbackFromText, hscan]

/-- C3 amended, witness: a plain-prose body with no JSON and no
`cypherQuery` literal lands on the default query result. -/
theorem C3_amended_synthesizer_fallback_witness :
    generateCypherQuery true (.content "hello") = defaultQueryResult :=
  C3_amended_synthesizer_fallback.2.2.1 "hello" rfl rfl rfl

/-! ## C9 — parsing a fenced JSON response -/

/-- C9: the response body `Here is the answer:` followed by a fenced json
code block containing the query object parses to exactly
`(queryText = MATCH (n) RETURN n, explanation = x)`. -/
theorem C9_fenced_block_parse :
    generateCypherQuery true
      (.content "Here is the answer:\n```json\n\x7b\"cypherQuery\":\"MATCH (n) RETURN n\",\"explanation\":\"x\"\x7d\n```") =
      ⟨.str "MATCH (n) RETURN n", .str "x"⟩ :=
  rfl

/-! ## C4 — the table-result path -/

/-- C4 counterexample: the code's guard checks the literal `.name` anywhere
in the text, not a `.property` access in the return clause — a query whose
only `.name` occurs in the WHERE clause and whose return clause yields the
whole node still triggers the table path, while a query projecting `n.age`
(a genuine property projection) does not. -/
theorem C4_counterexample :
    shouldProcessTable "MATCH (n) WHERE n.name = $name RETURN n" = true ∧
    specReturnClauseProjectsNamedValues "MATCH (n) WHERE n.name = $name RETURN n" = false ∧
    shouldProcessTable "MATCH (n) RETURN n.age" = false ∧
    specReturnClauseProjectsNamedValues "MATCH (n) RETURN n.age" = true := by
  decide

/-- C4 amended: the table result is produced exactly when the lowercased
query text contains `return` together with the literal substring `.name` or
`as ` — wherever they occur, not specifically in the return clause and not
for general property accesses. When produced on a nonempty record list, the
columns are the first record's field names, every row maps those columns
through `flattenCell`, entity cells (objects with a truthy `properties`
member) flatten to their property map, and scalar cells pass through
unchanged. -/
theorem C4_amended_table_path :
    (∀ q records, shouldProcessTable q = false → tableStage q records = none) ∧
    (∀ q records, shouldProcessTable q = true →
      tableStage q records = processTableRecords records) ∧
    (∀ records r0 rest, records = r0 :: rest →
      ∃ t, processTableRecords records = some t ∧
        t.columns = r0.map Prod.fst ∧
        t.rows.length = records.length ∧
        t.rows = records.map (fun rec =>
          t.columns.map (fun c => (c, flattenCell (recordGet rec c))))) ∧
    (∀ s, flattenCell (.str s) = .str s) ∧
    (∀ n, flattenCell (.num n) = .num n) ∧
    (flattenCell .nullV = .nullV) ∧
    (∀ fields p, jsValField fields "properties" = some p → jsValTruthy p = true →
      flattenCell (.obj fields) = p) := by
  refine ⟨?_, ?_, ?_, fun s => rfl, fun n => rfl, rfl, ?_⟩
  · intro q records h
    simp [tableStage, h]
  · intro q records h
    simp [tableStage, h]
  · intro records r0 rest h
    subst h
    exact ⟨_, rfl, rfl, by simp, rfl⟩
  · intro fields p h ht
    simp [flattenCell, h, ht]

/-- C4 amended, witness: the construction applied to one concrete record
with one entity cell and one scalar cell. -/
theorem C4_amended_table_path_witness :
    (∃ t, processTableRecords
        [[("a", JsVal.obj [("properties", JsVal.obj [("x", JsVal.str "1")])]),
          ("b", JsVal.str "2")]] = some t ∧
        t.columns = ["a", "b"] ∧ t.rows.length = 1) ∧
    flattenCell (JsVal.obj [("properties", JsVal.obj [("x", JsVal.str "1")])]) =
      JsVal.obj [("x", JsVal.str "1")] := by
  constructor
  · obtain ⟨t, h1, h2, h3, _⟩ := C4_amended_table_path.2.2.1
      [[("a", JsVal.obj [("properties", JsVal.obj [("x", JsVal.str "1")])]),
        ("b", JsVal.str "2")]]
      [("a", JsVal.obj [("properties", JsVal.obj [("x", JsVal.str "1")])]),
       ("b", JsVal.str "2")] [] rfl
    exact ⟨t, h1, h2, h3⟩
  · exact C4_amended_table_path.2.2.2.2.2.2 _ _ rfl rfl

/-! ## C5 — validation of the inbound message set -/

/-- C5 counterexample: a request whose `messages` field is the **empty
array** (with all credentials present) is *not* rejected — validation
passes, the schema phase and the synthesis call run. The claimed
immediate-rejection treatment applies only to an absent `messages` field. -/
theorem C5_counterexample :
    runTurnPrefix
        (some ⟨some [], some "key", none, some "bolt", some "neo4j", some "pw", none⟩)
        ⟨.ok [], .ok [], .failure⟩ =
      (.proceeded errorFallbackResult,
       [.dbSchemaFetch, .dbNodeProps, .llmSynthesis ⟨[], []⟩]) :=
  rfl

/-- C5 amended: an unparsable body or an absent `messages` field is rejected
immediately with the validation message and no external call (as are missing
credentials); an **empty** messages array passes validation and the turn
proceeds to the schema fetch and the synthesis call. -/
theorem C5_amended_empty_messages :
    (∀ o, runTurnPrefix none o = (.validationError 400 messagesErrorMessage, [])) ∧
    (∀ b o, b.messages = none →
      runTurnPrefix (some b) o = (.validationError 400 messagesErrorMessage, [])) ∧
    (∀ b o, b.messages = some [] → jsPresent b.openaiApiKey = true →
      jsPresent b.neo4jUri = true → jsPresent b.neo4jUsername = true →
      jsPresent b.neo4jPassword = true →
      runTurnPrefix (some b) o =
        (.proceeded (generateCypherQuery true o.llmOutcome),
         [.dbSchemaFetch, .dbNodeProps,
          .llmSynthesis (getGraphSchema o.labelsResult o.relTypesResult)])) := by
  refine ⟨fun o => rfl, ?_, ?_⟩
  · intro b o h
    simp [runTurnPrefix, h]
  · intro b o hm hk hu hn hp
    simp [runTurnPrefix, hm, hk, hu, hn, hp]

/-- C5 amended, witness: a body with the `messages` field absent is
rejected with the messages validation error and an empty step trace. -/
theorem C5_amended_empty_messages_witness :
    runTurnPrefix (some ⟨none, some "k", none, some "u", some "n", some "p", none⟩)
        ⟨.ok [], .ok [], .failure⟩ =
      (.validationError 400 messagesErrorMessage, []) :=
  C5_amended_empty_messages.2.1 _ _ rfl

/-! ## C6 — schema-fetch failure is absorbed -/

/-- C6: a throwing introspection query makes `getGraphSchema` return the
empty descriptor instead of propagating, and a turn whose schema fetch
errors still proceeds to the synthesis call, passing the empty schema
context. -/
theorem C6_schema_error_resilience :
    (∀ e rt, getGraphSchema (.error e) rt = ⟨[], []⟩) ∧
    (∀ ls e, getGraphSchema (.ok ls) (.error e) = ⟨[], []⟩) ∧
    (∀ b o e, o.labelsResult = .error e → b.messages.isSome = true →
      jsPresent b.openaiApiKey = true → jsPresent b.neo4jUri = true →
      jsPresent b.neo4jUsername = true → jsPresent b.neo4jPassword = true →
      (runTurnPrefix (some b) o).1 = .proceeded (generateCypherQuery true o.llmOutcome) ∧
      (runTurnPrefix (some b) o).2 =
        [.dbSchemaFetch, .dbNodeProps, .llmSynthesis ⟨[], []⟩]) := by
  refine ⟨fun e rt => rfl, fun ls e => rfl, ?_⟩
  intro b o e he hm hk hu hn hp
  obtain ⟨ms, hms⟩ := Option.isSome_iff_exists.mp hm
  constructor <;> simp [runTurnPrefix, hms, hk, hu, hn, hp, getGraphSchema, he]

/-- C6 witness: the resilience applied to a concrete outage and a concrete
valid request. -/
theorem C6_schema_error_resilience_witness :
    getGraphSchema (.error (.err "outage")) (.ok ["T"]) = ⟨[], []⟩ ∧
    (runTurnPrefix
        (some ⟨some [⟨"user", "hi"⟩], some "k", none, some "u", some "n", some "p", none⟩)
        ⟨.error (.err "outage"), .ok [], .failure⟩).2 =
      [.dbSchemaFetch, .dbNodeProps, .llmSynthesis ⟨[], []⟩] :=
  ⟨C6_schema_error_resilience.1 _ _,
   (C6_schema_error_resilience.2.2
      ⟨some [⟨"user", "hi"⟩], some "k", none, some "u", some "n", some "p", none⟩
      ⟨.error (.err "outage"), .ok [], .failure⟩
      (.err "outage") rfl rfl rfl rfl rfl rfl).2⟩

/-! ## C7 — missing API key is a side-effect-free rejection -/

/-- C7: when the LLM API key is missing (absent or empty) in a request whose
messages field is present, validation rejects with the API-key message —
which mentions the API key — and the step trace is empty: no database call
and no LLM call was attempted. -/
theorem C7_missing_api_key_rejection :
    (∀ b o, b.messages.isSome = true → jsPresent b.openaiApiKey = false →
      runTurnPrefix (some b) o = (.validationError 400 apiKeyErrorMessage, [])) ∧
    jsIncludes apiKeyErrorMessage "API密钥" = true := by
  constructor
  · intro b o hm hk
    obtain ⟨ms, hms⟩ := Option.isSome_iff_exists.mp hm
    simp [runTurnPrefix, hms, hk]
  · decide

/-- C7 witness: the rejection applied to a concrete request carrying
messages and Neo4j credentials but no API key. -/
theorem C7_missing_api_key_rejection_witness :
    runTurnPrefix
        (some ⟨some [⟨"user", "hi"⟩], none, none, some "u", some "n", some "p", none⟩)
        ⟨.ok [], .ok [], .failure⟩ =
      (.validationError 400 apiKeyErrorMessage, []) :=
  C7_missing_api_key_rejection.1 _ _ rfl rfl

end LLMGraphChat
